import Mathlib

/-!
Verification of the fixed-point time-quantity core (`Duration`) of this
repository: a shallow embedding of `src/core/src/time.rs` into Lean 4,
with machine integers modelled as `Nat` values bounded by the word size
where overflow matters, together with theorems settling the spec claims.
-/

set_option autoImplicit false

/-- Number of nanoseconds in a second (`NANOS_PER_SEC`). -/
def NANOS_PER_SEC : Nat := 1000000000

/-- Number of nanoseconds in a millisecond (`NANOS_PER_MILLI`). -/
def NANOS_PER_MILLI : Nat := 1000000

/-- Number of nanoseconds in a microsecond (`NANOS_PER_MICRO`). -/
def NANOS_PER_MICRO : Nat := 1000

/-- Number of milliseconds in a second (`MILLIS_PER_SEC`). -/
def MILLIS_PER_SEC : Nat := 1000

/-- Number of microseconds in a second (`MICROS_PER_SEC`). -/
def MICROS_PER_SEC : Nat := 1000000

/-- One more than `u64::MAX`: the modulus of Rust's `u64` type. -/
def U64_LIMIT : Nat := 2 ^ 64

/-- `u64::checked_add`: `some (a + b)` unless the sum exceeds `u64::MAX`. -/
def checkedAdd64 (a b : Nat) : Option Nat :=
  if a + b < U64_LIMIT then some (a + b) else none

/-- `u64::checked_sub`: `some (a - b)` unless the result would be negative. -/
def checkedSub64 (a b : Nat) : Option Nat :=
  if b ≤ a then some (a - b) else none

/-- `u64::checked_mul`: `some (a * b)` unless the product exceeds `u64::MAX`. -/
def checkedMul64 (a b : Nat) : Option Nat :=
  if a * b < U64_LIMIT then some (a * b) else none

/-- The `Duration` struct of `time.rs`: whole seconds (`secs: u64`) and a
subsecond nanosecond count (`nanos: u32`), with the documented invariant
`0 <= nanos < NANOS_PER_SEC`.  Fields are modelled as `Nat`; the machine
bounds (`secs < 2^64`, `nanos < 2^32`) appear as hypotheses where the
source relies on them. -/
structure Duration where
  secs : Nat
  nanos : Nat
deriving DecidableEq

namespace Duration

/-- `Duration::new(secs, nanos)`: carries `nanos / NANOS_PER_SEC` into the
seconds via `u64::checked_add`; `none` models the panic on carry overflow. -/
def new (secs nanos : Nat) : Option Duration :=
  match checkedAdd64 secs (nanos / NANOS_PER_SEC) with
  | some s => some ⟨s, nanos % NANOS_PER_SEC⟩
  | none => none

/-- `Duration::from_secs`. -/
def from_secs (secs : Nat) : Duration := ⟨secs, 0⟩

/-- `Duration::from_millis` (parameter is a `u64` value). -/
def from_millis (millis : Nat) : Duration :=
  ⟨millis / MILLIS_PER_SEC, millis % MILLIS_PER_SEC * NANOS_PER_MILLI⟩

/-- `Duration::from_micros` (parameter is a `u64` value). -/
def from_micros (micros : Nat) : Duration :=
  ⟨micros / MICROS_PER_SEC, micros % MICROS_PER_SEC * NANOS_PER_MICRO⟩

/-- `Duration::from_nanos` (parameter is a `u64` value). -/
def from_nanos (nanos : Nat) : Duration :=
  ⟨nanos / NANOS_PER_SEC, nanos % NANOS_PER_SEC⟩

/-- `Duration::ZERO`, defined in the source as `from_nanos(0)`. -/
def ZERO : Duration := from_nanos 0

/-- `Duration::MAX = Duration::new(u64::MAX, NANOS_PER_SEC - 1)`; the carry
is zero there, so the fields are exactly `(u64::MAX, 999_999_999)`. -/
def MAX : Duration := ⟨U64_LIMIT - 1, NANOS_PER_SEC - 1⟩

/-- `Duration::is_zero`. -/
def is_zero (d : Duration) : Bool := d.secs == 0 && d.nanos == 0

/-- `Duration::as_secs`. -/
def as_secs (d : Duration) : Nat := d.secs

/-- `Duration::subsec_millis`. -/
def subsec_millis (d : Duration) : Nat := d.nanos / NANOS_PER_MILLI

/-- `Duration::subsec_micros`. -/
def subsec_micros (d : Duration) : Nat := d.nanos / NANOS_PER_MICRO

/-- `Duration::subsec_nanos`. -/
def subsec_nanos (d : Duration) : Nat := d.nanos

/-- `Duration::as_millis` (result is a `u128`; no wraparound can occur for
field values in machine range, so plain `Nat` arithmetic is exact). -/
def as_millis (d : Duration) : Nat :=
  d.secs * MILLIS_PER_SEC + d.nanos / NANOS_PER_MILLI

/-- `Duration::as_micros` (result is a `u128`). -/
def as_micros (d : Duration) : Nat :=
  d.secs * MICROS_PER_SEC + d.nanos / NANOS_PER_MICRO

/-- `Duration::as_nanos` (result is a `u128`). -/
def as_nanos (d : Duration) : Nat :=
  d.secs * NANOS_PER_SEC + d.nanos

/-- `Duration::checked_add`: checked sum of the second counters, nanosecond
fields added (a `u32` addition that cannot wrap for canonical values), and
a checked carry of one second when the nanosecond sum reaches `10^9`. -/
def checked_add (a b : Duration) : Option Duration :=
  if a.secs + b.secs < U64_LIMIT then
    if NANOS_PER_SEC ≤ a.nanos + b.nanos then
      if a.secs + b.secs + 1 < U64_LIMIT then
        some ⟨a.secs + b.secs + 1, a.nanos + b.nanos - NANOS_PER_SEC⟩
      else none
    else some ⟨a.secs + b.secs, a.nanos + b.nanos⟩
  else none

/-- `Duration::saturating_add`: `checked_add`, clamped to `MAX` on `None`. -/
def saturating_add (a b : Duration) : Duration :=
  (checked_add a b).getD MAX

/-- `Duration::checked_sub`: checked difference of the second counters, with
a borrow of one second when the left nanosecond field is smaller. -/
def checked_sub (a b : Duration) : Option Duration :=
  if b.secs ≤ a.secs then
    if b.nanos ≤ a.nanos then
      some ⟨a.secs - b.secs, a.nanos - b.nanos⟩
    else if 1 ≤ a.secs - b.secs then
      some ⟨a.secs - b.secs - 1, a.nanos + NANOS_PER_SEC - b.nanos⟩
    else none
  else none

/-- `Duration::saturating_sub`: `checked_sub`, clamped to `ZERO` on `None`. -/
def saturating_sub (a b : Duration) : Duration :=
  (checked_sub a b).getD ZERO

/-- `Duration::checked_mul` by a `u32` scalar: the nanosecond field is
widened to `u64` before multiplying (which cannot wrap), split into a
carry and a sub-`10^9` remainder, then `u64::checked_mul`/`checked_add`
on the seconds. -/
def checked_mul (a : Duration) (rhs : Nat) : Option Duration :=
  let total_nanos := a.nanos * rhs
  let extra_secs := total_nanos / NANOS_PER_SEC
  let nanos := total_nanos % NANOS_PER_SEC
  match checkedMul64 a.secs rhs with
  | some s =>
    match checkedAdd64 s extra_secs with
    | some secs => some ⟨secs, nanos⟩
    | none => none
  | none => none

/-- `Duration::saturating_mul`: `checked_mul`, clamped to `MAX` on `None`. -/
def saturating_mul (a : Duration) (rhs : Nat) : Duration :=
  (checked_mul a rhs).getD MAX

/-- `Duration::checked_div` by a `u32` scalar: `none` exactly when the
divisor is zero; otherwise seconds are divided, and the remainder is scaled
by `10^9` (a `u64` product that cannot wrap for a `u32` divisor) and divided
to produce the extra nanosecond contribution. -/
def checked_div (a : Duration) (rhs : Nat) : Option Duration :=
  if rhs ≠ 0 then
    let secs := a.secs / rhs
    let carry := a.secs - secs * rhs
    let extra_nanos := carry * NANOS_PER_SEC / rhs
    some ⟨secs, a.nanos / rhs + extra_nanos⟩
  else none

/-- The strict order on `Duration` derived by `#[derive(PartialOrd, Ord)]`:
lexicographic on the `(secs, nanos)` fields in declaration order. -/
def lt (a b : Duration) : Prop :=
  a.secs < b.secs ∨ (a.secs = b.secs ∧ a.nanos < b.nanos)

instance : DecidablePred fun p : Duration × Duration => lt p.1 p.2 := by
  intro p; unfold lt; infer_instance

end Duration

/-- The loop body of the `sum_durations!` macro: the running totals
`(total_secs, total_nanos)` are `u64` accumulators; each element's seconds
are added with `u64::checked_add` (`none` models the fatal `expect`), and
when adding its nanoseconds would overflow `u64` the current excess
`total_nanos / 10^9` is first folded (checked) into the seconds. -/
def sumLoop : List Duration → Nat → Nat → Option (Nat × Nat)
  | [], total_secs, total_nanos => some (total_secs, total_nanos)
  | entry :: rest, total_secs, total_nanos =>
    match checkedAdd64 total_secs entry.secs with
    | none => none
    | some ts =>
      match checkedAdd64 total_nanos entry.nanos with
      | some tn => sumLoop rest ts tn
      | none =>
        match checkedAdd64 ts (total_nanos / NANOS_PER_SEC) with
        | none => none
        | some ts2 => sumLoop rest ts2 (total_nanos % NANOS_PER_SEC + entry.nanos)

/-- `<Duration as Sum>::sum` via the `sum_durations!` macro: run the loop
from `(0, 0)`, then perform the final checked fold of the excess
nanoseconds into the seconds and truncate the nanoseconds below `10^9`. -/
def sumDurations (l : List Duration) : Option Duration :=
  match sumLoop l 0 0 with
  | none => none
  | some (total_secs, total_nanos) =>
    match checkedAdd64 total_secs (total_nanos / NANOS_PER_SEC) with
    | none => none
    | some ts => some ⟨ts, total_nanos % NANOS_PER_SEC⟩

/-- Exact mathematical total of a list of durations, in nanoseconds. -/
def totalNanos : List Duration → Nat
  | [] => 0
  | d :: rest => d.as_nanos + totalNanos rest

/-- The two variants of `FromFloatSecsErrorKind` in `time.rs`. -/
inductive FromFloatSecsErrorKind where
  | negative
  | overflowOrNan
deriving DecidableEq

/-- The `Result<Duration, FromFloatSecsError>` returned by the float-to-
duration conversions. -/
inductive FromSecsResult where
  | ok : Duration → FromSecsResult
  | error : FromFloatSecsErrorKind → FromSecsResult
deriving DecidableEq

/-- The `try_from_secs!` macro body, parametrised exactly as in the source
(`mantissa_bits`, `exponent_bits`, `offset`), applied to the IEEE-754 bit
pattern of the input (`to_bits`; the sign test `is_sign_negative` is the
top bit).  Shifts of the `bits_ty` word are truncating, which for the
`(mant << exp) & MANT_MASK` step is the reduction `% 2 ^ mantBits`; all
other intermediates are wide enough never to wrap, so `Nat` arithmetic is
bit-exact. -/
def tryFromSecsGeneric (mantBits expBits offset bits : Nat) : FromSecsResult :=
  let minExp : Int := 1 - 2 ^ (expBits - 1)
  if bits.testBit (mantBits + expBits) then
    .error .negative
  else
    let mant := bits % 2 ^ mantBits + 2 ^ mantBits
    let exp : Int := ((bits / 2 ^ mantBits) % 2 ^ expBits : Nat) + minExp
    if exp < -31 then
      -- the input represents less than 1ns and can not be rounded to it
      .ok ⟨0, 0⟩
    else if exp < 0 then
      -- the input is less than 1 second
      let t := mant * 2 ^ (offset + exp).toNat
      let nanosOffset := mantBits + offset
      let nanosTmp := NANOS_PER_SEC * t
      let nanos := nanosTmp / 2 ^ nanosOffset
      let isTie := nanosTmp % 2 ^ nanosOffset == 2 ^ (nanosOffset - 1)
      let isEven := nanos % 2 == 0
      let remMsb := !(nanosTmp.testBit (nanosOffset - 1))
      let addNs := !(remMsb || (isEven && isTie))
      .ok ⟨0, nanos + addNs.toNat⟩
    else if exp < (mantBits : Int) then
      let secs := mant / 2 ^ (mantBits - exp.toNat)
      let t := mant * 2 ^ exp.toNat % 2 ^ mantBits
      let nanosOffset := mantBits
      let nanosTmp := NANOS_PER_SEC * t
      let nanos := nanosTmp / 2 ^ nanosOffset
      let isTie := nanosTmp % 2 ^ nanosOffset == 2 ^ (nanosOffset - 1)
      let isEven := nanos % 2 == 0
      let remMsb := !(nanosTmp.testBit (nanosOffset - 1))
      let addNs := !(remMsb || (isEven && isTie))
      .ok ⟨secs, nanos + addNs.toNat⟩
    else if exp < 64 then
      -- the input has no fractional part
      .ok ⟨mant * 2 ^ (exp.toNat - mantBits), 0⟩
    else
      .error .overflowOrNan

/-- `Duration::try_from_secs_f64`, as a function of the `f64` bit pattern:
`try_from_secs!` with `mantissa_bits = 52`, `exponent_bits = 11`,
`offset = 44`. -/
def tryFromSecsF64 (bits : Nat) : FromSecsResult :=
  tryFromSecsGeneric 52 11 44 bits

/-- `Duration::try_from_secs_f32`, as a function of the `f32` bit pattern:
`try_from_secs!` with `mantissa_bits = 23`, `exponent_bits = 8`,
`offset = 41`. -/
def tryFromSecsF32 (bits : Nat) : FromSecsResult :=
  tryFromSecsGeneric 23 8 41 bits

/-- The digit-extraction loop of `fmt_decimal`: repeatedly peel the digit
`fractional_part / divisor`, reduce `fractional_part` modulo `divisor` and
shrink `divisor` tenfold, while the fractional part is non-zero and fewer
than `fuel = precision.unwrap_or(9)` digits were written.  Returns the
written digits together with the final fractional part and divisor. -/
def extractDigits : Nat → Nat → Nat → List Nat × Nat × Nat
  | 0, fractional_part, divisor => ([], fractional_part, divisor)
  | fuel + 1, fractional_part, divisor =>
    if fractional_part > 0 then
      let d := fractional_part / divisor
      let (rest, fp, dv) := extractDigits fuel (fractional_part % divisor) (divisor / 10)
      (d :: rest, fp, dv)
    else ([], fractional_part, divisor)

/-- The round-up carry walk of `fmt_decimal`, expressed on the reversed
digit buffer (the source walks `rev_pos` from `pos` down to `0`): a digit
below `9` is incremented and stops the carry, a `9` becomes `0` and the
carry continues; `true` means the carry ran off the front of the buffer. -/
def incDigitsRev : List Nat → List Nat × Bool
  | [] => ([], true)
  | d :: rest =>
    if d < 9 then ((d + 1) :: rest, false)
    else
      let (rest2, c) := incDigitsRev rest
      (0 :: rest2, c)

/-- A decimal digit as its ASCII character (`b'0' + d`). -/
def digitChar (d : Nat) : Char := Char.ofNat (48 + d)

/-- Decimal length of `integer_part` as computed from `checked_log10` in
the source: one digit for zero, `log10 + 1` otherwise. -/
def intDecimalLen (n : Nat) : Nat := if n = 0 then 1 else Nat.log 10 n + 1

/-- `fmt_decimal` of the `Debug` impl, as a pure string function of the
formatter state this impl consults: requested `precision`, requested
minimum `width` (default left alignment, space fill) and the already
rendered sign prefix.  Digits are extracted, rounded half-up on a
discarded non-zero remainder, the first `min(precision, 9)` buffer cells
are printed zero-padded on the right to the requested precision, and the
result is padded with spaces to the requested width. -/
def fmtDecimal (precision width : Option Nat)
    (integer_part fractional_part divisor : Nat)
    (prefixStr postfixStr : String) : String :=
  let (digits, fp, dv) := extractDigits (precision.getD 9) fractional_part divisor
  let pos := digits.length
  let (digits2, integer2) :=
    if fp > 0 ∧ dv * 5 ≤ fp then
      let (rev2, carry) := incDigitsRev digits.reverse
      (rev2.reverse, if carry then integer_part + 1 else integer_part)
    else (digits, integer_part)
  let buf9 := digits2 ++ List.replicate (9 - pos) 0
  let endPos := match precision with
    | some p => min p 9
    | none => pos
  let fracWidth := precision.getD pos
  let fracStr := String.mk ((buf9.take endPos).map digitChar) ++
    String.mk (List.replicate (fracWidth - endPos) '0')
  let body := prefixStr ++ toString integer2 ++
    (if endPos > 0 then "." ++ fracStr else "") ++ postfixStr
  match width with
  | none => body
  | some requestedW =>
    let actualW := prefixStr.length + postfixStr.length + intDecimalLen integer2 +
      (if endPos > 0 then 1 + fracWidth else 0)
    if requestedW ≤ actualW then body
    else body ++ String.mk (List.replicate (requestedW - actualW) ' ')

/-- The `fmt::Debug` impl for `Duration`: pick the unit (seconds when
`secs > 0`, else milliseconds when `nanos >= 10^6`, else microseconds when
`nanos >= 10^3`, else nanoseconds) and call `fmt_decimal`, with a `+`
prefix when the sign-plus flag is set. -/
def durationDebug (precision width : Option Nat) (signPlus : Bool)
    (d : Duration) : String :=
  let prefixStr := if signPlus then "+" else ""
  if d.secs > 0 then
    fmtDecimal precision width d.secs d.nanos (NANOS_PER_SEC / 10) prefixStr "s"
  else if d.nanos ≥ NANOS_PER_MILLI then
    fmtDecimal precision width (d.nanos / NANOS_PER_MILLI) (d.nanos % NANOS_PER_MILLI)
      (NANOS_PER_MILLI / 10) prefixStr "ms"
  else if d.nanos ≥ NANOS_PER_MICRO then
    fmtDecimal precision width (d.nanos / NANOS_PER_MICRO) (d.nanos % NANOS_PER_MICRO)
      (NANOS_PER_MICRO / 10) prefixStr "µs"
  else
    fmtDecimal precision width d.nanos 0 1 prefixStr "ns"

/-! Helper lemmas about `checkedAdd64` and the summation loop. -/

theorem checkedAdd64_some {a b c : Nat} (h : checkedAdd64 a b = some c) :
    c = a + b ∧ a + b < U64_LIMIT := by
  unfold checkedAdd64 at h
  split_ifs at h with hlt
  simp only [Option.some.injEq] at h
  exact ⟨h.symm, hlt⟩

/-- Completeness of the summation loop: when the exact total of the whole
list stays below `2^64` seconds worth of nanoseconds, no checked addition
fails and the accumulator pair accounts exactly for the processed input. -/
theorem sumLoop_complete (l : List Duration) :
    ∀ ts tn, ts * NANOS_PER_SEC + tn + totalNanos l < U64_LIMIT * NANOS_PER_SEC →
    ∃ p, sumLoop l ts tn = some p ∧
      p.1 * NANOS_PER_SEC + p.2 = ts * NANOS_PER_SEC + tn + totalNanos l := by
  induction l with
  | nil => exact fun ts tn _ => ⟨(ts, tn), rfl, by simp [totalNanos]⟩
  | cons e rest ih =>
    intro ts tn h
    simp only [totalNanos, Duration.as_nanos, NANOS_PER_SEC, U64_LIMIT] at h
    have h1 : ts + e.secs < U64_LIMIT := by simp only [U64_LIMIT]; omega
    by_cases h2 : tn + e.nanos < U64_LIMIT
    · have step : sumLoop (e :: rest) ts tn = sumLoop rest (ts + e.secs) (tn + e.nanos) := by
        simp [sumLoop, checkedAdd64, if_pos h1, if_pos h2]
      obtain ⟨p, hp, hacc⟩ := ih (ts + e.secs) (tn + e.nanos)
        (by simp only [NANOS_PER_SEC, U64_LIMIT] at *; omega)
      refine ⟨p, by rw [step]; exact hp, ?_⟩
      simp only [totalNanos, Duration.as_nanos, NANOS_PER_SEC] at *
      omega
    · have h3 : ts + e.secs + tn / NANOS_PER_SEC < U64_LIMIT := by
        simp only [NANOS_PER_SEC, U64_LIMIT] at *; omega
      have step : sumLoop (e :: rest) ts tn =
          sumLoop rest (ts + e.secs + tn / NANOS_PER_SEC) (tn % NANOS_PER_SEC + e.nanos) := by
        simp [sumLoop, checkedAdd64, if_pos h1, if_neg h2, if_pos h3]
      obtain ⟨p, hp, hacc⟩ := ih (ts + e.secs + tn / NANOS_PER_SEC) (tn % NANOS_PER_SEC + e.nanos)
        (by simp only [NANOS_PER_SEC, U64_LIMIT] at *; omega)
      refine ⟨p, by rw [step]; exact hp, ?_⟩
      simp only [totalNanos, Duration.as_nanos, NANOS_PER_SEC] at *
      omega

/-- Soundness of the summation loop: a successful run keeps the seconds
accumulator inside `u64` range and accounts exactly for the input. -/
theorem sumLoop_sound (l : List Duration) :
    ∀ ts tn p, ts < U64_LIMIT → sumLoop l ts tn = some p →
      p.1 < U64_LIMIT ∧
      p.1 * NANOS_PER_SEC + p.2 = ts * NANOS_PER_SEC + tn + totalNanos l := by
  induction l with
  | nil =>
    intro ts tn p hts hp
    simp only [sumLoop, Option.some.injEq] at hp
    subst hp
    exact ⟨hts, by simp [totalNanos]⟩
  | cons e rest ih =>
    intro ts tn p hts hp
    rw [sumLoop] at hp
    split at hp
    next hA => exact absurd hp (by simp)
    next ts1 hA =>
      split at hp
      next tn1 hB =>
        obtain ⟨rfl, hb1⟩ := checkedAdd64_some hA
        obtain ⟨rfl, _⟩ := checkedAdd64_some hB
        obtain ⟨hlt, hacc⟩ := ih _ _ _ hb1 hp
        exact ⟨hlt, by simp only [totalNanos, Duration.as_nanos, NANOS_PER_SEC] at *; omega⟩
      next hB =>
        split at hp
        next hC => exact absurd hp (by simp)
        next ts2 hC =>
          obtain ⟨rfl, hb1⟩ := checkedAdd64_some hA
          obtain ⟨rfl, hb2⟩ := checkedAdd64_some hC
          obtain ⟨hlt, hacc⟩ := ih _ _ _ hb2 hp
          exact ⟨hlt, by simp only [totalNanos, Duration.as_nanos, NANOS_PER_SEC] at *; omega⟩

/-! Helper lemmas about the error structure of `try_from_secs!`. -/

/-- `try_from_secs!` returns the `Negative` error exactly when the sign bit
of the input bit pattern is set. -/
theorem tryFromSecsGeneric_negative_iff (mantBits expBits offset bits : Nat) :
    tryFromSecsGeneric mantBits expBits offset bits = .error .negative ↔
      bits.testBit (mantBits + expBits) = true := by
  simp only [tryFromSecsGeneric]
  split_ifs <;> simp_all

/-- On a clear sign bit, `try_from_secs!` returns the `OverflowOrNan` error
exactly when the unbiased exponent is at least `64`. -/
theorem tryFromSecsGeneric_overflow_iff (mantBits expBits offset bits : Nat)
    (hmb : mantBits ≤ 64)
    (hsign : bits.testBit (mantBits + expBits) = false) :
    tryFromSecsGeneric mantBits expBits offset bits = .error .overflowOrNan ↔
      64 ≤ (((bits / 2 ^ mantBits) % 2 ^ expBits : Nat) : Int) + (1 - 2 ^ (expBits - 1)) := by
  simp only [tryFromSecsGeneric, hsign, Bool.false_eq_true, if_false]
  split_ifs with h1 h2 h3 h4
  · simp only [reduceCtorEq, false_iff]; omega
  · simp only [reduceCtorEq, false_iff]; omega
  · simp only [reduceCtorEq, false_iff]; omega
  · simp only [reduceCtorEq, false_iff]; omega
  · simp only [true_iff]; omega

/-- On a clear sign bit and an unbiased exponent below `64`,
`try_from_secs!` succeeds. -/
theorem tryFromSecsGeneric_ok_of_inrange (mantBits expBits offset bits : Nat)
    (hsign : bits.testBit (mantBits + expBits) = false)
    (hexp : (((bits / 2 ^ mantBits) % 2 ^ expBits : Nat) : Int) + (1 - 2 ^ (expBits - 1)) < 64) :
    ∃ d, tryFromSecsGeneric mantBits expBits offset bits = .ok d := by
  simp only [tryFromSecsGeneric, hsign, Bool.false_eq_true, if_false]
  split_ifs with h1 h2 h3 <;> exact ⟨_, rfl⟩

/-! The claims. -/

/-- Claim C1 (refuted by the code, which contradicts its own field comment
`Always 0 <= nanos < NANOS_PER_SEC` and the in-branch comment asserting the
nanos part never equals `10^9`): `try_from_secs_f64` applied to the largest
`f64` below `1.0` (bit pattern `0x3FEFFFFFFFFFFFFF`, the value `1 - 2^-53`)
rounds the nanosecond count up to exactly `1_000_000_000`, producing a
`Duration` that violates the subsecond invariant claimed for every value
produced by any public operation. -/
theorem c1_invariant_violated_by_try_from_secs :
    tryFromSecsF64 0x3FEFFFFFFFFFFFFF = .ok ⟨0, 1000000000⟩ ∧
    ¬ (Duration.mk 0 1000000000).nanos < NANOS_PER_SEC := by
  constructor <;> decide

/-- Claim C2: `try_from_secs_f64` (and `try_from_secs_f32`) fails exactly in
two cases — `Negative` if and only if the sign bit of the bit pattern is
set, and, with the sign bit clear, `OverflowOrNan` if and only if the
unbiased exponent (biased exponent field minus 1023, resp. 127) is at
least 64; every other input yields `Ok`. -/
theorem c2_try_from_secs_error_conditions (bits64 bits32 : Nat)
    (h64 : bits64 < 2 ^ 64) (h32 : bits32 < 2 ^ 32) :
    (tryFromSecsF64 bits64 = .error .negative ↔ bits64.testBit 63 = true) ∧
    (bits64.testBit 63 = false →
      (tryFromSecsF64 bits64 = .error .overflowOrNan ↔
        64 ≤ (((bits64 / 2 ^ 52) % 2 ^ 11 : Nat) : Int) - 1023)) ∧
    (bits64.testBit 63 = false → (((bits64 / 2 ^ 52) % 2 ^ 11 : Nat) : Int) - 1023 < 64 →
      ∃ d, tryFromSecsF64 bits64 = .ok d) ∧
    (tryFromSecsF32 bits32 = .error .negative ↔ bits32.testBit 31 = true) ∧
    (bits32.testBit 31 = false →
      (tryFromSecsF32 bits32 = .error .overflowOrNan ↔
        64 ≤ (((bits32 / 2 ^ 23) % 2 ^ 8 : Nat) : Int) - 127)) ∧
    (bits32.testBit 31 = false → (((bits32 / 2 ^ 23) % 2 ^ 8 : Nat) : Int) - 127 < 64 →
      ∃ d, tryFromSecsF32 bits32 = .ok d) := by
  refine ⟨tryFromSecsGeneric_negative_iff 52 11 44 bits64, ?_, ?_,
    tryFromSecsGeneric_negative_iff 23 8 41 bits32, ?_, ?_⟩
  · intro hs
    have h := tryFromSecsGeneric_overflow_iff 52 11 44 bits64 (by norm_num) hs
    norm_num at h
    constructor
    · intro hx; have := h.mp hx; omega
    · intro hx; exact h.mpr (by omega)
  · intro hs hx
    exact tryFromSecsGeneric_ok_of_inrange 52 11 44 bits64 hs (by norm_num; omega)
  · intro hs
    have h := tryFromSecsGeneric_overflow_iff 23 8 41 bits32 (by norm_num) hs
    norm_num at h
    constructor
    · intro hx; have := h.mp hx; omega
    · intro hx; exact h.mpr (by omega)
  · intro hs hx
    exact tryFromSecsGeneric_ok_of_inrange 23 8 41 bits32 hs (by norm_num; omega)

/-- Witness for C2 at the bit patterns of `1.0f64` and `1.0f32`. -/
theorem c2_try_from_secs_error_conditions_witness :
    (tryFromSecsF64 0x3FF0000000000000 = .error .negative ↔
      Nat.testBit 0x3FF0000000000000 63 = true) ∧
    (Nat.testBit 0x3FF0000000000000 63 = false →
      (tryFromSecsF64 0x3FF0000000000000 = .error .overflowOrNan ↔
        64 ≤ (((0x3FF0000000000000 / 2 ^ 52) % 2 ^ 11 : Nat) : Int) - 1023)) ∧
    (Nat.testBit 0x3FF0000000000000 63 = false →
      (((0x3FF0000000000000 / 2 ^ 52) % 2 ^ 11 : Nat) : Int) - 1023 < 64 →
      ∃ d, tryFromSecsF64 0x3FF0000000000000 = .ok d) ∧
    (tryFromSecsF32 0x3F800000 = .error .negative ↔
      Nat.testBit 0x3F800000 31 = true) ∧
    (Nat.testBit 0x3F800000 31 = false →
      (tryFromSecsF32 0x3F800000 = .error .overflowOrNan ↔
        64 ≤ (((0x3F800000 / 2 ^ 23) % 2 ^ 8 : Nat) : Int) - 127)) ∧
    (Nat.testBit 0x3F800000 31 = false →
      (((0x3F800000 / 2 ^ 23) % 2 ^ 8 : Nat) : Int) - 127 < 64 →
      ∃ d, tryFromSecsF32 0x3F800000 = .ok d) :=
  c2_try_from_secs_error_conditions 0x3FF0000000000000 0x3F800000 (by decide) (by decide)

/-- Claim C3: `try_from_secs_f64` on the bit pattern
`0x3F50_0000_0000_0000` (exactly `976562.5e-9` seconds, an exact half-way
tie) resolves the tie to the even nanosecond count `976_562`. -/
theorem c3_tie_resolved_to_even :
    tryFromSecsF64 0x3F50000000000000 = .ok ⟨0, 976562⟩ := by
  decide

/-- Counterexample to claim C4 as stated: for `d = (u64::MAX, 0)` the total
nanosecond count `as_nanos(d)` does not fit the `u64` parameter of
`from_nanos`, and feeding it through the `u64` conversion (reduction
modulo `2^64`, Rust's `as u64`) does not recover `d`. -/
theorem c4_roundtrip_counterexample :
    2 ^ 64 ≤ Duration.as_nanos ⟨2 ^ 64 - 1, 0⟩ ∧
    Duration.from_nanos (Duration.as_nanos ⟨2 ^ 64 - 1, 0⟩ % 2 ^ 64) ≠ ⟨2 ^ 64 - 1, 0⟩ := by
  constructor <;> decide

/-- Claim C4, amended: for every canonical `Duration` whose total in the
given unit fits the `u64` parameter of the corresponding constructor,
`from_nanos (as_nanos d) = d`, and `from_millis (as_millis d)` and
`from_micros (as_micros d)` recover `d` truncated to that unit's
resolution. -/
theorem c4_roundtrip_amended (d : Duration) (hn : d.nanos < NANOS_PER_SEC) :
    (d.as_nanos < U64_LIMIT → Duration.from_nanos d.as_nanos = d) ∧
    (d.as_millis < U64_LIMIT →
      Duration.from_millis d.as_millis =
        ⟨d.secs, d.nanos / NANOS_PER_MILLI * NANOS_PER_MILLI⟩) ∧
    (d.as_micros < U64_LIMIT →
      Duration.from_micros d.as_micros =
        ⟨d.secs, d.nanos / NANOS_PER_MICRO * NANOS_PER_MICRO⟩) := by
  obtain ⟨s, n⟩ := d
  simp only [Duration.as_nanos, Duration.as_millis, Duration.as_micros, Duration.from_nanos,
    Duration.from_millis, Duration.from_micros, NANOS_PER_SEC, NANOS_PER_MILLI, NANOS_PER_MICRO,
    MILLIS_PER_SEC, MICROS_PER_SEC, U64_LIMIT, Duration.mk.injEq] at *
  exact ⟨fun _ => ⟨by omega, by omega⟩, fun _ => ⟨by omega, by omega⟩,
    fun _ => ⟨by omega, by omega⟩⟩

/-- Witness for the amended C4 at `d = (5, 730023852)`. -/
theorem c4_roundtrip_amended_witness :
    (Duration.as_nanos ⟨5, 730023852⟩ < U64_LIMIT →
      Duration.from_nanos (Duration.as_nanos ⟨5, 730023852⟩) = ⟨5, 730023852⟩) ∧
    (Duration.as_millis ⟨5, 730023852⟩ < U64_LIMIT →
      Duration.from_millis (Duration.as_millis ⟨5, 730023852⟩) =
        ⟨5, 730023852 / NANOS_PER_MILLI * NANOS_PER_MILLI⟩) ∧
    (Duration.as_micros ⟨5, 730023852⟩ < U64_LIMIT →
      Duration.from_micros (Duration.as_micros ⟨5, 730023852⟩) =
        ⟨5, 730023852 / NANOS_PER_MICRO * NANOS_PER_MICRO⟩) :=
  c4_roundtrip_amended ⟨5, 730023852⟩ (by decide)

/-- Counterexample to claim C5 as stated: `Duration(0, 999_999_999)` has a
subsecond count of at least one millisecond, so the adaptive formatter
renders it with the milliseconds unit (`"999.999999ms"`), not the
nanoseconds unit. -/
theorem c5_formatting_counterexample :
    durationDebug none none false ⟨0, 999999999⟩ = "999.999999ms" ∧
    durationDebug none none false ⟨0, 999999999⟩ ≠ "999999999ns" := by
  constructor <;> decide

/-- Claim C5, amended: `Duration(5, 730023852)` renders as
`"5.730023852s"` with no precision requested and as `"5.730s"` with
requested precision 3; `Duration(0, 999_999_999)` (no integer seconds)
renders with the milliseconds unit, and a value below one microsecond such
as `Duration(0, 999)` renders with the nanoseconds unit. -/
theorem c5_formatting_amended :
    durationDebug none none false ⟨5, 730023852⟩ = "5.730023852s" ∧
    durationDebug (some 3) none false ⟨5, 730023852⟩ = "5.730s" ∧
    durationDebug none none false ⟨0, 999999999⟩ = "999.999999ms" ∧
    durationDebug none none false ⟨0, 999⟩ = "999ns" := by
  refine ⟨by decide, by decide, by decide, by decide⟩

/-- Claim C6: whenever the exact mathematical total of a finite sequence of
durations is representable as a `Duration` (below `2^64` seconds), `sum`
returns exactly that total — excess nanoseconds are carried into the
seconds without loss; whenever the total is not representable (so some
checked addition into the seconds total overflows `u64`), `sum` fails
fatally instead of wrapping, in particular on
`[Duration(u64::MAX, 0), Duration(u64::MAX, 0)]`. -/
theorem c6_sum_exact_and_overflow (l l2 : List Duration)
    (hw : ∀ d ∈ l, d.secs < U64_LIMIT ∧ d.nanos < 2 ^ 32)
    (hrep : totalNanos l < U64_LIMIT * NANOS_PER_SEC) :
    sumDurations l = some ⟨totalNanos l / NANOS_PER_SEC, totalNanos l % NANOS_PER_SEC⟩ ∧
    (U64_LIMIT * NANOS_PER_SEC ≤ totalNanos l2 → sumDurations l2 = none) ∧
    sumDurations [⟨U64_LIMIT - 1, 0⟩, ⟨U64_LIMIT - 1, 0⟩] = none := by
  refine ⟨?_, ?_, by decide⟩
  · obtain ⟨p, hp, hacc⟩ := sumLoop_complete l 0 0 (by simpa using hrep)
    obtain ⟨ts, tn⟩ := p
    simp only at hacc
    have hfin : ts + tn / NANOS_PER_SEC < U64_LIMIT := by
      simp only [NANOS_PER_SEC, U64_LIMIT] at *; omega
    have hCA : checkedAdd64 ts (tn / NANOS_PER_SEC) = some (ts + tn / NANOS_PER_SEC) := by
      unfold checkedAdd64; rw [if_pos hfin]
    simp only [sumDurations, hp, hCA, Option.some.injEq, Duration.mk.injEq]
    constructor <;> (simp only [NANOS_PER_SEC, U64_LIMIT] at *; omega)
  · intro hbig
    rcases hA : sumLoop l2 0 0 with _ | ⟨ts, tn⟩
    · simp [sumDurations, hA]
    · obtain ⟨hlt, hacc⟩ := sumLoop_sound l2 0 0 (ts, tn) (by simp [U64_LIMIT]) hA
      simp only at hlt hacc
      rcases hB : checkedAdd64 ts (tn / NANOS_PER_SEC) with _ | ts2
      · simp [sumDurations, hA, hB]
      · obtain ⟨rfl, hb⟩ := checkedAdd64_some hB
        exfalso
        simp only [NANOS_PER_SEC, U64_LIMIT] at *
        omega

/-- Witness for C6: a sum of three durations whose subsecond parts carry
into the seconds, and the fatally failing two-element sum. -/
theorem c6_sum_exact_and_overflow_witness :
    sumDurations [⟨0, 800000000⟩, ⟨0, 700000000⟩, ⟨3, 600000000⟩] =
      some ⟨totalNanos [⟨0, 800000000⟩, ⟨0, 700000000⟩, ⟨3, 600000000⟩] / NANOS_PER_SEC,
            totalNanos [⟨0, 800000000⟩, ⟨0, 700000000⟩, ⟨3, 600000000⟩] % NANOS_PER_SEC⟩ ∧
    (U64_LIMIT * NANOS_PER_SEC ≤ totalNanos [⟨U64_LIMIT - 1, 0⟩, ⟨U64_LIMIT - 1, 0⟩] →
      sumDurations [⟨U64_LIMIT - 1, 0⟩, ⟨U64_LIMIT - 1, 0⟩] = none) ∧
    sumDurations [⟨U64_LIMIT - 1, 0⟩, ⟨U64_LIMIT - 1, 0⟩] = none :=
  c6_sum_exact_and_overflow
    [⟨0, 800000000⟩, ⟨0, 700000000⟩, ⟨3, 600000000⟩]
    [⟨U64_LIMIT - 1, 0⟩, ⟨U64_LIMIT - 1, 0⟩]
    (by decide) (by decide)

/-- Claim C7: `ZERO` is the additive identity (here through `checked_add`,
which is what the panicking `+` operator unwraps), and subtraction inverts
addition: a successful `checked_add a b = some c` implies
`checked_sub c b = some a`, for canonical operands. -/
theorem c7_additive_identity_and_inverse (d a b c : Duration)
    (hds : d.secs < U64_LIMIT) (hdn : d.nanos < NANOS_PER_SEC)
    (han : a.nanos < NANOS_PER_SEC) (hbn : b.nanos < NANOS_PER_SEC) :
    Duration.checked_add d Duration.ZERO = some d ∧
    (Duration.checked_add a b = some c → Duration.checked_sub c b = some a) := by
  obtain ⟨ds, dn⟩ := d
  obtain ⟨s1, n1⟩ := a
  obtain ⟨s2, n2⟩ := b
  simp only [Duration.checked_add, Duration.checked_sub, Duration.ZERO, Duration.from_nanos,
    U64_LIMIT, NANOS_PER_SEC, Duration.mk.injEq] at *
  constructor
  · split_ifs with h1 h2 h3 <;> simp_all <;> omega
  · intro hc
    split_ifs at hc with h1 h2 h3 <;> simp_all only [Option.some.injEq] <;>
      obtain ⟨c1, c2⟩ := c <;> simp_all only [Duration.mk.injEq] <;>
      obtain ⟨rfl, rfl⟩ := hc <;> split_ifs <;> simp_all [Duration.mk.injEq] <;> omega

/-- Witness for C7 at `d = a = (1, 2)`, `b = (3, 999999999)`,
`c = (5, 1)` (the sum carries one second). -/
theorem c7_additive_identity_and_inverse_witness :
    Duration.checked_add ⟨1, 2⟩ Duration.ZERO = some ⟨1, 2⟩ ∧
    (Duration.checked_add ⟨1, 2⟩ ⟨3, 999999999⟩ = some ⟨5, 1⟩ →
      Duration.checked_sub ⟨5, 1⟩ ⟨3, 999999999⟩ = some ⟨1, 2⟩) :=
  c7_additive_identity_and_inverse ⟨1, 2⟩ ⟨1, 2⟩ ⟨3, 999999999⟩ ⟨5, 1⟩
    (by decide) (by decide) (by decide) (by decide)

/-- Claim C8: saturating arithmetic clamps at the range bounds:
`MAX.saturating_add x = MAX` and `ZERO.saturating_sub x = ZERO` for every
`Duration` value `x`. -/
theorem c8_saturation_bounds (x : Duration) :
    Duration.saturating_add Duration.MAX x = Duration.MAX ∧
    Duration.saturating_sub Duration.ZERO x = Duration.ZERO := by
  obtain ⟨s, n⟩ := x
  constructor
  · simp only [Duration.saturating_add, Duration.checked_add, Duration.MAX, Duration.ZERO,
      U64_LIMIT, NANOS_PER_SEC]
    split_ifs with h1 h2 h3 <;>
      simp_all [Option.getD, Duration.mk.injEq] <;> omega
  · simp only [Duration.saturating_sub, Duration.checked_sub, Duration.MAX, Duration.ZERO,
      Duration.from_nanos, U64_LIMIT, NANOS_PER_SEC]
    split_ifs with h1 h2 h3 <;>
      simp_all [Option.getD, Duration.mk.injEq]

/-- Claim C9: the derived lexicographic ordering on `(secs, nanos)`
coincides with ordering by total nanoseconds on canonical values, and
equality of the structures coincides with equality of total nanoseconds. -/
theorem c9_ord_coincides_with_total_nanos (a b : Duration)
    (ha : a.nanos < NANOS_PER_SEC) (hb : b.nanos < NANOS_PER_SEC) :
    (Duration.lt a b ↔ a.as_nanos < b.as_nanos) ∧
    (a = b ↔ a.as_nanos = b.as_nanos) := by
  obtain ⟨s1, n1⟩ := a
  obtain ⟨s2, n2⟩ := b
  simp only [Duration.lt, Duration.as_nanos, Duration.mk.injEq, NANOS_PER_SEC] at *
  constructor
  · constructor
    · rintro (h | ⟨rfl, h⟩) <;> nlinarith
    · intro h
      rcases Nat.lt_trichotomy s1 s2 with h2 | h2 | h2
      · exact Or.inl h2
      · subst h2; right; exact ⟨rfl, by omega⟩
      · nlinarith
  · constructor
    · rintro ⟨rfl, rfl⟩; rfl
    · intro h
      have hs : s1 = s2 := by
        rcases Nat.lt_trichotomy s1 s2 with h2 | h2 | h2
        · nlinarith
        · exact h2
        · nlinarith
      subst hs
      exact ⟨rfl, by omega⟩

/-- Witness for C9 at `a = (0, 1)` and `b = (0, 2)`. -/
theorem c9_ord_coincides_with_total_nanos_witness :
    (Duration.lt ⟨0, 1⟩ ⟨0, 2⟩ ↔
      Duration.as_nanos ⟨0, 1⟩ < Duration.as_nanos ⟨0, 2⟩) ∧
    ((⟨0, 1⟩ : Duration) = ⟨0, 2⟩ ↔
      Duration.as_nanos ⟨0, 1⟩ = Duration.as_nanos ⟨0, 2⟩) :=
  c9_ord_coincides_with_total_nanos ⟨0, 1⟩ ⟨0, 2⟩ (by decide) (by decide)

/-- Claim C10: summing the empty sequence of durations succeeds and
returns `Duration::ZERO`. -/
theorem c10_empty_sum_is_zero :
    sumDurations [] = some Duration.ZERO := by
  decide
